import Mathlib

/-!
Shallow embedding of `succinate_dehydrogenase_analysis.py`, a linear
bioinformatics pipeline: catalog fetch, interactive selection, asset download,
Pfam profile extraction, SLURM job-script generation, and HMMer result
aggregation.

Modelling conventions:
* Python strings are sequences of code points; where the code manipulates the
  inside of a string (`split`, slicing, `int()`, `startswith`, `endswith`) we
  work on `List Char`; where strings are only concatenated (file names,
  command lines) we use `String`.
* Side effects (HTTP downloads, subprocess calls, file writes) are modelled as
  explicit traces or oracle functions, so that return values and effect order
  are both visible.
* Numeric hit attributes (e-value, bit score) are modelled as integers: every
  claim about them uses only order comparisons.
-/

namespace SdhAnalysis

/-! ### Python string primitives -/

/-- Python `s.split(sep)` for a one-character separator: cut at every
occurrence of the separator, keeping empty segments; the result is never
empty (source line 19 uses `url.split('/')`). -/
def pySplitChar (sep : Char) : List Char → List (List Char)
  | [] => [[]]
  | c :: cs =>
    if c = sep then [] :: pySplitChar sep cs
    else
      match pySplitChar sep cs with
      | [] => [[c]]
      | seg :: rest => (c :: seg) :: rest

/-- Python `s.split()` with no argument: split on runs of whitespace,
discarding empty segments (source line 172).  The first argument accumulates
the current token in reverse. -/
def pySplitWsAux : List Char → List Char → List (List Char)
  | [], cur => if cur.isEmpty then [] else [cur.reverse]
  | c :: cs, cur =>
    if c.isWhitespace then
      if cur.isEmpty then pySplitWsAux cs []
      else cur.reverse :: pySplitWsAux cs []
    else pySplitWsAux cs (c :: cur)

/-- Python `s.split()` with no argument, on a whole line. -/
def pySplitWs (s : List Char) : List (List Char) := pySplitWsAux s []

/-- Python `s.startswith(pre)`: `pre` is a prefix of `s`. -/
def pyStartsWith (s pre : String) : Bool := pre.data.isPrefixOf s.data

/-- Python `s.endswith(suf)`: `suf` is a suffix of `s`. -/
def pyEndsWith (s suf : String) : Bool := suf.data.isSuffixOf s.data

/-- Python truthiness of a string: non-empty. -/
def pyTruthy (s : String) : Bool := !s.data.isEmpty

/-! ### Function 1: `download_and_unzip_fasta` (source lines 17-28) -/

/-- Source line 19: `local_file = url.split('/')[-1]` — the final
`/`-separated segment of the URL.  `split` never returns an empty list, so
Python's `[-1]` is the last element; `getLastD` with an (unreachable) default
models it. -/
def local_file_of (url : List Char) : List Char :=
  (pySplitChar '/' url).getLastD []

/-- Model of `download_and_unzip_fasta` (source lines 17-28): the return value
is the local file name with its last three characters removed
(`local_file[:-3]`, stripping the `.gz` suffix).  The download
(`request.urlretrieve`) and the decompression (`subprocess.call('gunzip ...')`)
only touch the file system and do not affect the returned name. -/
def download_and_unzip_fasta (url : List Char) : List Char :=
  (local_file_of url).take ((local_file_of url).length - 3)

/-! ### Function 2: `extract_and_download_Pfam` (source lines 33-46) -/

/-- Model of `extract_and_download_Pfam` (source lines 33-46).  The `Accession`
column of the TSV is given as the list of its entries in row order; `fetch` is
an oracle assigning to each issued shell command its exit status
(`subprocess.call` returns the status and never raises on a non-zero exit;
the source discards it).  Returns the filtered identifier list — the
function's Python return value — paired with the trace of exit statuses of
the `wget` and `gunzip` calls issued, in order. -/
def extract_and_download_Pfam (accessions : List String) (fetch : String → Int) :
    List String × List Int :=
  let pfam_identifiers := accessions.filter (fun identifier => pyStartsWith identifier "PF")
  (pfam_identifiers,
    pfam_identifiers.flatMap (fun pf_id =>
      [fetch ("wget https://www.ebi.ac.uk/interpro/wwwapi//entry/pfam/" ++ pf_id ++
          "?annotation=hmm -O " ++ pf_id ++ ".hmm.gz"),
       fetch ("gunzip " ++ pf_id ++ ".hmm.gz")]))

/-! ### Catalog fetch loop (source lines 148-155) -/

/-- The fixed suffix the catalog loop filters on (source line 154). -/
def proteinSuffix : String := ".protein.fa.gz"

/-- One iteration of the catalog fetch loop (source lines 152-155): the
anchor's optional `href` attribute (`link.get('href')` is `None` when absent)
is appended to `urls` when it is truthy (non-empty) and ends with
`.protein.fa.gz`. -/
def catalogStep (urls : List String) (href? : Option String) : List String :=
  match href? with
  | some href =>
      if pyTruthy href && pyEndsWith href proteinSuffix then urls ++ [href] else urls
  | none => urls

/-- Model of the catalog fetch loop (source lines 148-155): fold the step over
the document's anchor tags, in document order, starting from `urls = []`. -/
def collectCatalogUrls (anchors : List (Option String)) : List String :=
  anchors.foldl catalogStep []

/-! ### Selection loop, input 1 (source lines 161-182) -/

/-- Decimal value of a digit list (most significant first). -/
def digitsToNat (l : List Char) : Nat :=
  l.foldl (fun a c => a * 10 + (c.toNat - 48)) 0

/-- Whether a character list is a non-empty run of decimal digits. -/
def isDigits (l : List Char) : Bool := !l.isEmpty && l.all (fun c => c.isDigit)

/-- Model of Python `int()` on a whitespace-free token: an optional sign
followed by at least one decimal digit yields the value; any other token
raises `ValueError`, modelled as `none`. -/
def pyInt (t : List Char) : Option Int :=
  match t with
  | '-' :: rest => if isDigits rest then some (-(digitsToNat rest : Int)) else none
  | '+' :: rest => if isDigits rest then some (digitsToNat rest : Int) else none
  | _ => if isDigits t then some (digitsToNat t : Int) else none

/-- Outcome of one iteration of the selection `while` loop on a given input
line (source lines 161-182). -/
inductive SelectionOutcome where
  /-- The condition on line 175 held: the three indexed URLs are downloaded
  and the loop breaks. -/
  | accept (indices : List Nat)
  /-- The condition was `False`: the invalid-input message is printed and the
  loop re-prompts. -/
  | reprompt
  /-- `int()` raised an uncaught `ValueError`: the run aborts. -/
  | valueError
deriving Repr, DecidableEq

/-- Model of `all(0 <= int(index_id) < i for index_id in index_ids)` (source
line 175): the generator is consumed lazily, left to right, stopping at the
first `False`; `int()` on a malformed token raises `ValueError`, modelled as
`Except.error`. -/
def check_indices (size : Nat) : List (List Char) → Except Unit Bool
  | [] => Except.ok true
  | t :: ts =>
    match pyInt t with
    | none => Except.error ()
    | some v =>
        if 0 ≤ v ∧ v < (size : Int) then check_indices size ts else Except.ok false

/-- The body of the selection loop after tokenisation (source lines 175-182):
`len(index_ids) == 3 and all(...)` with Python's short-circuit `and`, so the
range generator is only evaluated when exactly three tokens are present.  On
acceptance each token is parsed again (`urls[int(index_id)]`, line 178). -/
def selection_check (size : Nat) (index_ids : List (List Char)) : SelectionOutcome :=
  if index_ids.length = 3 then
    match check_indices size index_ids with
    | Except.error _ => SelectionOutcome.valueError
    | Except.ok true =>
        SelectionOutcome.accept (index_ids.map (fun t => ((pyInt t).getD 0).toNat))
    | Except.ok false => SelectionOutcome.reprompt
  else SelectionOutcome.reprompt

/-- One iteration of the selection loop on a raw input line:
`index_ids = user_input.split()` (source line 172) followed by the check. -/
def selection_step (size : Nat) (line : List Char) : SelectionOutcome :=
  selection_check size (pySplitWs line)

/-! ### Hit records (source lines 95-103) -/

/-- One parsed HMMer hit (the dict built on source lines 97-102). -/
structure Hit where
  target_name : String
  query_name : String
  e_value : Int
  score : Int
deriving Repr, DecidableEq

/-! ### Function 3: `create_hmmer_alice_script` (source lines 51-82) -/

/-- The output-file name used in each generated `hmmsearch` invocation
(source line 81): `{hmm}_{fasta}.out`. -/
def output_file_name (hmm fasta : String) : String :=
  hmm ++ "_" ++ fasta ++ ".out"

/-- One generated `hmmsearch` invocation line (source line 81), with the
string concatenation exactly as written there. -/
def hmmer_command (hmm fasta : String) : String :=
  "hmmsearch --tblout ${output_dir}/" ++ hmm ++ "_" ++ fasta ++
    ".out -E 0.1 --noali ${hmm_dir}/" ++ hmm ++ ".hmm ${fasta_dir}/" ++ fasta ++ "\n"

/-- The eighteen `file.write` calls preceding the command loop (source lines
55-76): SLURM directives, the hmmsearch path, module loads, and directory
variables. -/
def slurm_header_writes (email : String) : List String :=
  ["#!/bin/bash\n",
   "#SBATCH --job-name=HMMer_Nematodes\n",
   "#SBATCH --nodes=1\n",
   "#SBATCH --tasks-per-node=1\n",
   "#SBATCH --mem=8gb\n",
   "#SBATCH --time=02:00:00\n",
   "#SBATCH --mail-type=BEGIN,END,FAIL\n",
   "#SBATCH --mail-user=" ++ email ++ "\n\n",
   "executable from ALICE",
   "hmmsearch=/cm/shared/spack/opt/spack/linux-rocky9-x86_64_v3/gcc-12.3.0/hmmer-3.3.2-ipmjfm2vvzhroirpnpn5i4rw5wptqf7r/bin/hmmsearch\n\n",
   "# Module needed for using HPC installed software\n",
   "module load gcc/12.3.0-yxgv2bl\n",
   "module load openmpi/4.1.5-fzc7xdf\n",
   "module load hmmer/3.3.2-ipmjfm2\n\n",
   "# HMM and FASTA files (assumed to be the current directory)\n",
   "hmm_dir=$(pwd)\n",
   "fasta_dir=$(pwd)\n",
   "output_dir=$(pwd)\n\n"]

/-- Model of `create_hmmer_alice_script` (source lines 51-82): the sequence of
strings passed to `file.write` on `HMMsearch.sh`, in order — the fixed header
followed by the doubly nested command loop (lines 79-81), appending one
invocation per `(hmm, fasta)` pair. -/
def create_hmmer_alice_script (email : String) (hmms fastas : List String) :
    List String :=
  hmms.foldl
    (fun ws hmm => fastas.foldl (fun ws2 fasta => ws2 ++ [hmmer_command hmm fasta]) ws)
    (slurm_header_writes email)

/-! ### Function 4: `parse_analyse_hmmer_outputs` (source lines 87-141) -/

/-- The per-pair output file path read by the parser (source line 92):
`hmm + "_" + fasta + ".out"`. -/
def hit_file_path (hmm fasta : String) : String :=
  hmm ++ "_" ++ fasta ++ ".out"

/-- Model of the parsing loop of `parse_analyse_hmmer_outputs` (source lines
89-103).  `fs` is the file-system oracle: for a file name, the list of hit
records `SearchIO.parse` yields from it, in file order.  Returns the trace of
file names read and the `extracted_data` list, both built by appending inside
the doubly nested loop. -/
def parse_analyse_hmmer_outputs (hmms fastas : List String) (fs : String → List Hit) :
    List String × List Hit :=
  hmms.foldl
    (fun acc hmm =>
      fastas.foldl
        (fun acc2 fasta =>
          (acc2.1 ++ [hit_file_path hmm fasta], acc2.2 ++ fs (hit_file_path hmm fasta)))
        acc)
    ([], [])

/-- The row key used by the pivot: the `(target_name, query_name)` pair
(source line 114 uses `index='target_name', columns='query_name'`). -/
def pivot_key (h : Hit) : String × String := (h.target_name, h.query_name)

/-- The message of the `ValueError` pandas raises on a duplicated index. -/
def reshape_error_msg : String := "Index contains duplicate entries, cannot reshape"

/-- Worker for `pivot`: builds the `(target, query) ↦ score` cell list row by
row, failing as soon as a row's key has already been placed. -/
def pivotAux : List Hit → List (String × String) → Except String (List ((String × String) × Int))
  | [], _ => Except.ok []
  | h :: rest, seen =>
    if pivot_key h ∈ seen then Except.error reshape_error_msg
    else
      match pivotAux rest (pivot_key h :: seen) with
      | Except.ok cells => Except.ok ((pivot_key h, h.score) :: cells)
      | Except.error e => Except.error e

/-- Model of `df.pivot(index='target_name', columns='query_name',
values='score')` (source line 114): a partial function that produces the
target-by-query score cells when every row's `(target_name, query_name)` pair
is unique and raises `ValueError` otherwise — pandas never silently drops a
duplicate row. -/
def pivot (df : List Hit) : Except String (List ((String × String) × Int)) :=
  pivotAux df []

/-- Model of `df.nlargest(n, 'score')` (source line 129): the rows ordered by
`score` descending — pandas' order-by-column sort is stable, so ties keep row
order — truncated to the first `n`. -/
def nlargest (n : Nat) (df : List Hit) : List Hit :=
  (df.mergeSort (fun a b => decide (b.score ≤ a.score))).take n

/-- The bar-chart input (source line 129): `top_hits = df.nlargest(10, 'score')`. -/
def top_hits (df : List Hit) : List Hit := nlargest 10 df

/-- Example file-system oracle: two HMMer output files for profile `PF1`
against sequence sets `a.fa` and `b.fa`, each holding two hit rows. -/
def exFs : String → List Hit := fun n =>
  if n = "PF1_a.fa.out" then
    [⟨"tnem1", "PF1q", -5, 10⟩, ⟨"tnem2", "PF1q", -4, 9⟩]
  else if n = "PF1_b.fa.out" then
    [⟨"tnem3", "PF1q", -3, 8⟩, ⟨"tnem4", "PF1q", -2, 7⟩]
  else []

/-- Example aggregated table: 15 hit records with pairwise distinct scores. -/
def exBigTable : List Hit :=
  [⟨"t01", "q1", -1, 3⟩, ⟨"t02", "q1", -1, 14⟩, ⟨"t03", "q1", -1, 7⟩,
   ⟨"t04", "q2", -1, 1⟩, ⟨"t05", "q2", -1, 12⟩, ⟨"t06", "q2", -1, 9⟩,
   ⟨"t07", "q2", -1, 5⟩, ⟨"t08", "q3", -1, 15⟩, ⟨"t09", "q3", -1, 2⟩,
   ⟨"t10", "q3", -1, 11⟩, ⟨"t11", "q3", -1, 8⟩, ⟨"t12", "q4", -1, 13⟩,
   ⟨"t13", "q4", -1, 4⟩, ⟨"t14", "q4", -1, 10⟩, ⟨"t15", "q4", -1, 6⟩]

/-! ### Helper lemmas -/

lemma isPrefixOf_iff_exists_append (l₁ l₂ : List Char) :
    l₁.isPrefixOf l₂ = true ↔ ∃ t, l₂ = l₁ ++ t := by
  rw [List.isPrefixOf_iff_prefix]
  constructor
  · rintro ⟨t, ht⟩
    exact ⟨t, ht.symm⟩
  · rintro ⟨t, ht⟩
    exact ⟨t, ht.symm⟩

lemma pyStartsWith_PF_iff (s : String) :
    pyStartsWith s "PF" = true ↔ ∃ t, s.data = 'P' :: 'F' :: t := by
  unfold pyStartsWith
  rw [isPrefixOf_iff_exists_append]
  constructor
  · rintro ⟨t, ht⟩
    exact ⟨t, ht⟩
  · rintro ⟨t, ht⟩
    exact ⟨t, ht⟩

lemma pyTruthy_of_pyEndsWith_proteinSuffix (s : String)
    (h : pyEndsWith s proteinSuffix = true) : pyTruthy s = true := by
  unfold pyEndsWith at h
  rw [List.isSuffixOf_iff_suffix] at h
  obtain ⟨t, ht⟩ := h
  unfold pyTruthy
  cases hd : s.data with
  | nil =>
      rw [hd] at ht
      exact absurd (List.append_eq_nil.mp ht).2 (by decide)
  | cons c cs => simp

lemma truthy_and_suffix (href : String) :
    (pyTruthy href && pyEndsWith href proteinSuffix) = pyEndsWith href proteinSuffix := by
  cases h : pyEndsWith href proteinSuffix with
  | false => simp
  | true => simp [pyTruthy_of_pyEndsWith_proteinSuffix href h]

lemma catalogStep_some (urls : List String) (href : String) :
    catalogStep urls (some href)
      = urls ++ (if pyEndsWith href proteinSuffix then [href] else []) := by
  show (if (pyTruthy href && pyEndsWith href proteinSuffix) = true then urls ++ [href] else urls)
      = urls ++ (if pyEndsWith href proteinSuffix then [href] else [])
  rw [truthy_and_suffix]
  cases pyEndsWith href proteinSuffix <;> simp

lemma collectCatalogUrls_go (anchors : List (Option String)) (acc : List String) :
    anchors.foldl catalogStep acc
      = acc ++ (anchors.filterMap id).filter (fun href => pyEndsWith href proteinSuffix) := by
  induction anchors generalizing acc with
  | nil => simp
  | cons a anchors ih =>
    cases a with
    | none =>
      rw [List.foldl_cons]
      have hstep : catalogStep acc none = acc := rfl
      rw [hstep, ih]
      simp
    | some href =>
      rw [List.foldl_cons, catalogStep_some, ih]
      cases h : pyEndsWith href proteinSuffix with
      | false => simp [h, List.filter_cons]
      | true => simp [h, List.filter_cons, List.append_assoc]

/-! ### Claim theorems -/

/-- C7: for every delimited table whose Accession column contains identifier
tokens, the Profile Extractor returns exactly the identifiers that begin with
the fixed two-character prefix `PF`, in original row order; in particular,
rows `PF00001, XY123, PF00045` yield exactly `["PF00001", "PF00045"]`. -/
theorem pfam_extraction_keeps_PF_prefixed_accessions
    (accessions : List String) (fetch : String → Int) :
    ((extract_and_download_Pfam accessions fetch).1).Sublist accessions
    ∧ (∀ s, s ∈ (extract_and_download_Pfam accessions fetch).1 ↔
        s ∈ accessions ∧ ∃ t, s.data = 'P' :: 'F' :: t)
    ∧ (extract_and_download_Pfam ["PF00001", "XY123", "PF00045"] (fun _ => 0)).1
        = ["PF00001", "PF00045"] := by
  refine ⟨List.filter_sublist accessions, fun s => ?_, by decide⟩
  show s ∈ accessions.filter (fun identifier => pyStartsWith identifier "PF") ↔ _
  rw [List.mem_filter, pyStartsWith_PF_iff]

/-- C10: the identifier list returned by the Profile Extractor depends only on
the Accession column: `subprocess.call` never raises on a failed `wget` or
`gunzip` (a non-zero status is simply returned and discarded), so two runs
over the same table return the identical list no matter what the download
outcomes are; each retained identifier still issues its two shell calls
(`wget` and `gunzip`, whence the trace has twice the list's length), and no
identifier is removed on failure. -/
theorem pfam_identifier_list_ignores_download_status
    (accessions : List String) (f g : String → Int) :
    (extract_and_download_Pfam accessions f).1 = (extract_and_download_Pfam accessions g).1
    ∧ (extract_and_download_Pfam accessions f).2.length
        = 2 * (extract_and_download_Pfam accessions f).1.length := by
  refine ⟨rfl, ?_⟩
  have hgen : ∀ (ps : List String) (k : String → List Int), (∀ p, (k p).length = 2) →
      (ps.flatMap k).length = 2 * ps.length := by
    intro ps k hk
    induction ps with
    | nil => rfl
    | cons p ps ih =>
      rw [List.flatMap_cons, List.length_append, hk, ih, List.length_cons]
      ring
  exact hgen _ _ (fun p => rfl)

/-- C8: the Asset Downloader derives the local file name as the final
`/`-separated segment of the URL and returns it with the `.gz` compression
suffix removed. -/
theorem downloaded_fasta_name_strips_gz (url seg : List Char)
    (h : local_file_of url = seg ++ ".gz".data) :
    download_and_unzip_fasta url = seg := by
  unfold download_and_unzip_fasta
  rw [h, List.length_append]
  have h3 : (".gz".data).length = 3 := rfl
  rw [h3, Nat.add_sub_cancel]
  exact List.take_left seg _

/-- Witness for C8 at a URL ending in `foo.fa.gz`. -/
theorem downloaded_fasta_name_strips_gz_witness :
    local_file_of "https://parasite.wormbase.org/species/foo.fa.gz".data
        = "foo.fa".data ++ ".gz".data
    ∧ download_and_unzip_fasta "https://parasite.wormbase.org/species/foo.fa.gz".data
        = "foo.fa".data :=
  ⟨by decide, downloaded_fasta_name_strips_gz _ _ (by decide)⟩

/-- C9: for every HTML document, the Catalog Fetcher returns exactly the href
targets ending in `.protein.fa.gz`, in the order they are encountered: the
collected list is the suffix-filtered sequence of present hrefs, its length is
the number of matching anchors, and on a concrete fixture with five anchors of
which two match, exactly those two are returned in document order. -/
theorem catalog_fetch_collects_suffix_matches_in_order (anchors : List (Option String)) :
    collectCatalogUrls anchors
      = (anchors.filterMap id).filter (fun href => pyEndsWith href proteinSuffix)
    ∧ (collectCatalogUrls anchors).length
      = anchors.countP (fun href? =>
          (href?.map (fun href => pyEndsWith href proteinSuffix)).getD false)
    ∧ collectCatalogUrls
        [some "https://x/a.protein.fa.gz", none, some "readme.txt", some "",
         some "https://x/b.protein.fa.gz"]
      = ["https://x/a.protein.fa.gz", "https://x/b.protein.fa.gz"] := by
  have hmain : collectCatalogUrls anchors
      = (anchors.filterMap id).filter (fun href => pyEndsWith href proteinSuffix) := by
    unfold collectCatalogUrls
    rw [collectCatalogUrls_go]
    simp
  refine ⟨hmain, ?_, by decide⟩
  rw [hmain, ← List.countP_eq_length_filter, List.countP_filterMap]
  rfl

/-- C1: behaviour of one Selector loop iteration at catalog size 5.  Inputs
with fewer or more than 3 tokens re-prompt, an input with an out-of-range
index re-prompts, and three valid in-range tokens are accepted — but an input
of exactly three tokens containing a non-integer token makes `int()` raise an
uncaught `ValueError`, aborting the run instead of re-prompting, contrary to
the claim. -/
theorem selection_loop_concrete_behaviour :
    selection_step 5 "1 2".data = SelectionOutcome.reprompt
    ∧ selection_step 5 "1 2 3 4".data = SelectionOutcome.reprompt
    ∧ selection_step 5 "1 2 9".data = SelectionOutcome.reprompt
    ∧ selection_step 5 "-1 2 3".data = SelectionOutcome.reprompt
    ∧ selection_step 5 "1 2 4".data = SelectionOutcome.accept [1, 2, 4]
    ∧ selection_step 5 "1 2 x".data = SelectionOutcome.valueError := by
  decide

/-- Counterexample to C2: with catalog size 3, the input line `0 0 0` — three
valid in-range indices with a repeated index — is accepted, not rejected with
a re-prompt. -/
theorem repeated_indices_are_accepted :
    selection_step 3 "0 0 0".data = SelectionOutcome.accept [0, 0, 0]
    ∧ selection_step 3 "0 0 0".data ≠ SelectionOutcome.reprompt := by
  decide

/-- C2 (amended): the Selector accepts any input line that splits into exactly
three tokens parsing as integers in `[0, size)`; pairwise distinctness of the
indices is not checked, so repeated indices are accepted too. -/
theorem three_in_range_indices_accepted (size : Nat) (line t1 t2 t3 : List Char)
    (v1 v2 v3 : Int)
    (hsplit : pySplitWs line = [t1, t2, t3])
    (h1 : pyInt t1 = some v1) (h2 : pyInt t2 = some v2) (h3 : pyInt t3 = some v3)
    (hb1 : 0 ≤ v1 ∧ v1 < (size : Int)) (hb2 : 0 ≤ v2 ∧ v2 < (size : Int))
    (hb3 : 0 ≤ v3 ∧ v3 < (size : Int)) :
    selection_step size line = SelectionOutcome.accept [v1.toNat, v2.toNat, v3.toNat] := by
  unfold selection_step
  rw [hsplit]
  unfold selection_check
  have hlen : ([t1, t2, t3] : List (List Char)).length = 3 := rfl
  rw [if_pos hlen]
  have hc : check_indices size [t1, t2, t3] = Except.ok true := by
    simp only [check_indices, h1, h2, h3]
    simp [hb1.1, hb1.2, hb2.1, hb2.2, hb3.1, hb3.2]
  rw [hc]
  simp [h1, h2, h3]

/-- Witness for C2 (amended): the repeated input `1 1 1` at catalog size 3 is
accepted. -/
theorem three_in_range_indices_accepted_witness :
    pySplitWs "1 1 1".data = ["1".data, "1".data, "1".data]
    ∧ selection_step 3 "1 1 1".data = SelectionOutcome.accept [1, 1, 1] :=
  ⟨by decide,
    three_in_range_indices_accepted 3 "1 1 1".data "1".data "1".data "1".data 1 1 1
      (by decide) (by decide) (by decide) (by decide) (by decide) (by decide) (by decide)⟩

lemma pivotAux_error_of_dup :
    ∀ (df : List Hit) (seen : List (String × String)),
      (¬ (df.map pivot_key).Nodup ∨ ∃ k ∈ df.map pivot_key, k ∈ seen) →
      ∃ e, pivotAux df seen = Except.error e := by
  intro df
  induction df with
  | nil =>
    intro seen h
    rcases h with h | ⟨k, hk, _⟩
    · exact absurd List.nodup_nil h
    · exact absurd hk (by simp)
  | cons h rest ih =>
    intro seen hdup
    by_cases hmem : pivot_key h ∈ seen
    · exact ⟨reshape_error_msg, by simp [pivotAux, hmem]⟩
    · have hnext : ¬ (rest.map pivot_key).Nodup
          ∨ ∃ k ∈ rest.map pivot_key, k ∈ pivot_key h :: seen := by
        rcases hdup with hnd | ⟨k, hk, hks⟩
        · rw [List.map_cons, List.nodup_cons] at hnd
          by_cases hin : pivot_key h ∈ rest.map pivot_key
          · exact Or.inr ⟨pivot_key h, hin, List.mem_cons_self _ _⟩
          · by_cases hrest : (rest.map pivot_key).Nodup
            · exact absurd ⟨hin, hrest⟩ hnd
            · exact Or.inl hrest
        · rw [List.map_cons] at hk
          rcases List.mem_cons.mp hk with rfl | hk'
          · exact absurd hks hmem
          · exact Or.inr ⟨k, hk', List.mem_cons_of_mem _ hks⟩
      obtain ⟨e, he⟩ := ih (pivot_key h :: seen) hnext
      exact ⟨e, by simp [pivotAux, hmem, he]⟩

/-- C3: the matrix reshape is a partial function requiring unique
`(target_name, query_name)` pairs: on any aggregated table in which two rows
share the same pair, `pivot` raises (reports an error) and never returns a
matrix with one of the duplicates silently dropped. -/
theorem pivot_fails_on_duplicate_pairs (df : List Hit)
    (hdup : ¬ (df.map pivot_key).Nodup) :
    (∃ e, pivot df = Except.error e) ∧ ∀ cells, pivot df ≠ Except.ok cells := by
  obtain ⟨e, he⟩ := pivotAux_error_of_dup df [] (Or.inl hdup)
  refine ⟨⟨e, he⟩, fun cells hc => ?_⟩
  rw [show pivot df = pivotAux df [] from rfl, he] at hc
  exact Except.noConfusion hc

/-- Witness for C3 on a two-row table whose rows share the pair `(t, q)`. -/
theorem pivot_fails_on_duplicate_pairs_witness :
    ¬ ((([⟨"t", "q", -1, 10⟩, ⟨"t", "q", -2, 20⟩] : List Hit)).map pivot_key).Nodup
    ∧ ((∃ e, pivot [⟨"t", "q", -1, 10⟩, ⟨"t", "q", -2, 20⟩] = Except.error e)
        ∧ ∀ cells, pivot [⟨"t", "q", -1, 10⟩, ⟨"t", "q", -2, 20⟩] ≠ Except.ok cells) :=
  ⟨by decide, pivot_fails_on_duplicate_pairs _ (by decide)⟩

lemma nested_foldl_eq (g : String → String → String) (fastas : List String) :
    ∀ (hmms : List String) (init : List String),
      hmms.foldl (fun ws hmm => fastas.foldl (fun ws2 fasta => ws2 ++ [g hmm fasta]) ws) init
        = init ++ hmms.flatMap (fun hmm => fastas.map (g hmm)) := by
  have hinner : ∀ (hmm : String) (fas : List String) (init : List String),
      fas.foldl (fun ws2 fasta => ws2 ++ [g hmm fasta]) init = init ++ fas.map (g hmm) := by
    intro hmm fas
    induction fas with
    | nil => intro init; simp
    | cons f fsa ih =>
      intro init
      rw [List.foldl_cons, ih]
      simp
  intro hmms
  induction hmms with
  | nil => intro init; simp
  | cons h hs ih =>
    intro init
    rw [List.foldl_cons, hinner, ih, List.flatMap_cons, List.append_assoc]

lemma cross_length {α : Type} (g : String → String → α) (hmms fastas : List String) :
    (hmms.flatMap (fun hmm => fastas.map (g hmm))).length
      = hmms.length * fastas.length := by
  induction hmms with
  | nil => simp
  | cons h hs ih =>
    rw [List.flatMap_cons, List.length_append, ih, List.length_map, List.length_cons,
      Nat.succ_mul]
    ring

lemma cross_getElem {α : Type} (g : String → String → α) :
    ∀ (hmms fastas : List String) (i j : Nat) (hi : i < hmms.length)
      (hj : j < fastas.length),
      (hmms.flatMap (fun hmm => fastas.map (g hmm)))[i * fastas.length + j]?
        = some (g (hmms.get ⟨i, hi⟩) (fastas.get ⟨j, hj⟩)) := by
  intro hmms
  induction hmms with
  | nil =>
    intro fastas i j hi hj
    exact absurd hi (Nat.not_lt_zero i)
  | cons h hs ih =>
    intro fastas i j hi hj
    cases i with
    | zero =>
      rw [List.flatMap_cons, Nat.zero_mul, Nat.zero_add]
      rw [List.getElem?_append_left (by rw [List.length_map]; exact hj)]
      rw [List.getElem?_map, List.getElem?_eq_getElem hj]
      rfl
    | succ n =>
      rw [List.flatMap_cons]
      have hge : (fastas.map (g h)).length ≤ (n + 1) * fastas.length + j := by
        rw [List.length_map, Nat.succ_mul]
        omega
      rw [List.getElem?_append_right hge]
      have hidx : (n + 1) * fastas.length + j - (fastas.map (g h)).length
          = n * fastas.length + j := by
        rw [List.length_map, Nat.succ_mul]
        omega
      rw [hidx]
      exact ih fastas n j (Nat.lt_of_succ_lt_succ hi) hj

lemma parse_inner (hmm : String) (fs : String → List Hit) :
    ∀ (fastas : List String) (acc : List String × List Hit),
      fastas.foldl
        (fun acc2 fasta =>
          (acc2.1 ++ [hit_file_path hmm fasta], acc2.2 ++ fs (hit_file_path hmm fasta)))
        acc
      = (acc.1 ++ fastas.map (hit_file_path hmm),
         acc.2 ++ fastas.flatMap (fun fasta => fs (hit_file_path hmm fasta))) := by
  intro fastas
  induction fastas with
  | nil => intro acc; simp
  | cons f fsa ih =>
    intro acc
    rw [List.foldl_cons, ih]
    simp

lemma parse_outer (fs : String → List Hit) (fastas : List String) :
    ∀ (hmms : List String) (acc : List String × List Hit),
      hmms.foldl
        (fun acc1 hmm =>
          fastas.foldl
            (fun acc2 fasta =>
              (acc2.1 ++ [hit_file_path hmm fasta], acc2.2 ++ fs (hit_file_path hmm fasta)))
            acc1)
        acc
      = (acc.1 ++ hmms.flatMap (fun hmm => fastas.map (hit_file_path hmm)),
         acc.2 ++ hmms.flatMap
             (fun hmm => fastas.flatMap (fun fasta => fs (hit_file_path hmm fasta)))) := by
  intro hmms
  induction hmms with
  | nil => intro acc; simp
  | cons h hs ih =>
    intro acc
    rw [List.foldl_cons, parse_inner, ih]
    simp [List.append_assoc]

lemma sum_of_lengths {α β : Type} (g : α → List β) (l : List α) :
    (l.flatMap g).length = (l.map (fun a => (g a).length)).sum := by
  induction l with
  | nil => rfl
  | cons x xs ih =>
    rw [List.flatMap_cons, List.length_append, ih, List.map_cons, List.sum_cons]

lemma sum_flatMap_eq {α : Type} (g : α → List Nat) (l : List α) :
    (l.flatMap g).sum = (l.map (fun a => (g a).sum)).sum := by
  induction l with
  | nil => rfl
  | cons x xs ih =>
    rw [List.flatMap_cons, List.sum_append, ih, List.map_cons, List.sum_cons]

/-- C4: the Job Script Generator writes the fixed 18-line header followed by
exactly `|hmms| × |fastas|` invocation lines — the full cross product, ordered
profile-major then sequence-set-minor — where the line for pair `(i, j)` sits
at cross-product offset `i * |fastas| + j` and names its output file exactly
`{hmm}_{fasta}.out`; on profiles `[PF1, PF2]` and sets `[a.fa, b.fa]` the four
lines appear in order `PF1_a, PF1_b, PF2_a, PF2_b`. -/
theorem script_emits_full_cross_product (email : String) (hmms fastas : List String) :
    create_hmmer_alice_script email hmms fastas
      = slurm_header_writes email ++ hmms.flatMap (fun hmm => fastas.map (hmmer_command hmm))
    ∧ (create_hmmer_alice_script email hmms fastas).length
      = 18 + hmms.length * fastas.length
    ∧ (∀ i j (hi : i < hmms.length) (hj : j < fastas.length),
        ((create_hmmer_alice_script email hmms fastas).drop 18)[i * fastas.length + j]?
          = some (hmmer_command (hmms.get ⟨i, hi⟩) (fastas.get ⟨j, hj⟩)))
    ∧ (∀ hmm fasta,
        hmmer_command hmm fasta
          = "hmmsearch --tblout ${output_dir}/" ++ output_file_name hmm fasta
            ++ " -E 0.1 --noali ${hmm_dir}/" ++ hmm ++ ".hmm ${fasta_dir}/" ++ fasta
            ++ "\n")
    ∧ (create_hmmer_alice_script "user@uni.ac.uk" ["PF1", "PF2"] ["a.fa", "b.fa"]).drop 18
      = ["hmmsearch --tblout ${output_dir}/PF1_a.fa.out -E 0.1 --noali ${hmm_dir}/PF1.hmm ${fasta_dir}/a.fa\n",
         "hmmsearch --tblout ${output_dir}/PF1_b.fa.out -E 0.1 --noali ${hmm_dir}/PF1.hmm ${fasta_dir}/b.fa\n",
         "hmmsearch --tblout ${output_dir}/PF2_a.fa.out -E 0.1 --noali ${hmm_dir}/PF2.hmm ${fasta_dir}/a.fa\n",
         "hmmsearch --tblout ${output_dir}/PF2_b.fa.out -E 0.1 --noali ${hmm_dir}/PF2.hmm ${fasta_dir}/b.fa\n"] := by
  have hscript : create_hmmer_alice_script email hmms fastas
      = slurm_header_writes email
        ++ hmms.flatMap (fun hmm => fastas.map (hmmer_command hmm)) := by
    unfold create_hmmer_alice_script
    rw [nested_foldl_eq]
  refine ⟨hscript, ?_, ?_, ?_, by decide⟩
  · rw [hscript, List.length_append, cross_length]
    rfl
  · intro i j hi hj
    rw [hscript]
    have hdrop : (slurm_header_writes email
          ++ hmms.flatMap (fun hmm => fastas.map (hmmer_command hmm))).drop 18
        = hmms.flatMap (fun hmm => fastas.map (hmmer_command hmm)) := by
      rw [show (18 : Nat) = (slurm_header_writes email).length from rfl]
      exact List.drop_left _ _
    rw [hdrop]
    exact cross_getElem hmmer_command hmms fastas i j hi hj
  · intro hmm fasta
    unfold hmmer_command output_file_name
    simp only [String.append_assoc]
    rfl

/-- Witness for C4: in the concrete script, the cross-product line at offset
`1 * 2 + 1` is the invocation for `(PF2, b.fa)`. -/
theorem script_emits_full_cross_product_witness :
    ((create_hmmer_alice_script "user@uni.ac.uk" ["PF1", "PF2"] ["a.fa", "b.fa"]).drop 18)[1 * 2 + 1]?
      = some (hmmer_command "PF2" "b.fa") :=
  (script_emits_full_cross_product "user@uni.ac.uk" ["PF1", "PF2"] ["a.fa", "b.fa"]).2.2.1
    1 1 (by decide) (by decide)

/-- C5: the Result Aggregator reads exactly the files named
`{hmm}_{fasta}.out` for every pair — the very names the Job Script Generator
uses — in profile-major, sequence-set-minor order; the aggregated table is the
concatenation of the per-file records in that order, so its row count is the
sum of the per-file hit counts, and on two fixture files with two hits each it
has exactly four rows. -/
theorem aggregator_matches_generator_naming (hmms fastas : List String)
    (fs : String → List Hit) :
    (parse_analyse_hmmer_outputs hmms fastas fs).1
      = hmms.flatMap (fun hmm => fastas.map (output_file_name hmm))
    ∧ (parse_analyse_hmmer_outputs hmms fastas fs).2
      = hmms.flatMap (fun hmm => fastas.flatMap (fun fasta => fs (output_file_name hmm fasta)))
    ∧ (parse_analyse_hmmer_outputs hmms fastas fs).2.length
      = ((parse_analyse_hmmer_outputs hmms fastas fs).1.map (fun n => (fs n).length)).sum
    ∧ (parse_analyse_hmmer_outputs ["PF1"] ["a.fa", "b.fa"] exFs).2.length = 4 := by
  have h1 : (parse_analyse_hmmer_outputs hmms fastas fs).1
      = hmms.flatMap (fun hmm => fastas.map (hit_file_path hmm)) := by
    unfold parse_analyse_hmmer_outputs
    rw [parse_outer]
    simp
  have h2 : (parse_analyse_hmmer_outputs hmms fastas fs).2
      = hmms.flatMap (fun hmm => fastas.flatMap (fun fasta => fs (hit_file_path hmm fasta))) := by
    unfold parse_analyse_hmmer_outputs
    rw [parse_outer]
    simp
  refine ⟨h1, h2, ?_, by decide⟩
  rw [h1, h2, sum_of_lengths, List.map_flatMap, sum_flatMap_eq]
  apply congrArg List.sum
  apply List.map_congr_left
  intro hmm _
  rw [sum_of_lengths, List.map_map]
  rfl

/-- C6: for every aggregated table with at least 10 records and pairwise
distinct scores, the bar-chart input `top_hits` consists of exactly 10 records
drawn from the table, sorted strictly descending by score, and every record
left out scores strictly below every record kept — i.e. it is exactly the 10
records with the largest scores in descending order. -/
theorem top_hits_are_ten_largest (df : List Hit)
    (hlen : 10 ≤ df.length)
    (hdist : df.Pairwise (fun a b => a.score ≠ b.score)) :
    (top_hits df).length = 10
    ∧ (∀ x ∈ top_hits df, x ∈ df)
    ∧ (top_hits df).Pairwise (fun a b => b.score < a.score)
    ∧ (∀ y ∈ df, y ∉ top_hits df → ∀ x ∈ top_hits df, y.score < x.score) := by
  have htrans : ∀ (a b c : Hit), (fun a b : Hit => decide (b.score ≤ a.score)) a b = true →
      (fun a b : Hit => decide (b.score ≤ a.score)) b c = true →
      (fun a b : Hit => decide (b.score ≤ a.score)) a c = true := by
    intro a b c hab hbc
    simp only [decide_eq_true_eq] at hab hbc ⊢
    exact le_trans hbc hab
  have htotal : ∀ (a b : Hit), ((fun a b : Hit => decide (b.score ≤ a.score)) a b
      || (fun a b : Hit => decide (b.score ≤ a.score)) b a) = true := by
    intro a b
    simp only [Bool.or_eq_true, decide_eq_true_eq]
    exact le_total b.score a.score
  set sorted := df.mergeSort (fun a b => decide (b.score ≤ a.score)) with hsorted
  have hperm : sorted.Perm df := List.mergeSort_perm df _
  have hsort : sorted.Pairwise (fun a b => decide (b.score ≤ a.score) = true) :=
    List.sorted_mergeSort htrans htotal df
  have hsort' : sorted.Pairwise (fun a b => b.score ≤ a.score) := by
    refine hsort.imp ?_
    intro a b h
    exact decide_eq_true_eq.mp h
  have hdist' : sorted.Pairwise (fun a b => a.score ≠ b.score) :=
    ((List.Perm.pairwise_iff (fun h => h.symm) hperm).mpr hdist)
  have hth : top_hits df = sorted.take 10 := rfl
  have hsplit : sorted.take 10 ++ sorted.drop 10 = sorted := List.take_append_drop 10 sorted
  have htake : (sorted.take 10).Sublist sorted := List.take_sublist 10 sorted
  refine ⟨?_, ?_, ?_, ?_⟩
  · rw [hth, List.length_take, hperm.length_eq]
    exact Nat.min_eq_left hlen
  · intro x hx
    rw [hth] at hx
    exact hperm.mem_iff.mp (htake.mem hx)
  · rw [hth]
    have hs := hsort'.sublist htake
    have hd := hdist'.sublist htake
    refine (hs.and hd).imp ?_
    intro a b h
    exact lt_of_le_of_ne h.1 (fun e => h.2 e.symm)
  · intro y hy hyn x hx
    rw [hth] at hyn hx
    have hysorted : y ∈ sorted := hperm.mem_iff.mpr hy
    have hyd : y ∈ sorted.drop 10 := by
      rcases (List.mem_append.mp (by rw [hsplit]; exact hysorted)) with h | h
      · exact absurd h hyn
      · exact h
    have hcross := (List.pairwise_append.mp (by rw [hsplit]; exact hsort')).2.2
    have hcross' := (List.pairwise_append.mp (by rw [hsplit]; exact hdist')).2.2
    exact lt_of_le_of_ne (hcross x hx y hyd) (fun e => hcross' x hx y hyd e.symm)

/-- Witness for C6 on a 15-record table with pairwise distinct scores. -/
theorem top_hits_are_ten_largest_witness :
    (top_hits exBigTable).length = 10
    ∧ (∀ x ∈ top_hits exBigTable, x ∈ exBigTable)
    ∧ (top_hits exBigTable).Pairwise (fun a b => b.score < a.score)
    ∧ (∀ y ∈ exBigTable, y ∉ top_hits exBigTable →
        ∀ x ∈ top_hits exBigTable, y.score < x.score) :=
  top_hits_are_ten_largest exBigTable (by decide) (by decide)

end SdhAnalysis
